import Mathlib

/-!
Shallow embedding of the `StringBuilder` class from `src/StringBuilder.ts`
(repository `js-stringbuilder`).

Modelling conventions:
* A JS string is modelled as a `List Nat` of its UTF-16 code units
  (`s.charCodeAt i` is element `i`); the static `TextDecoder` turns the
  unit sequence `storage[0, len)` back into the same unit sequence, so
  materialization is modelled as the unit list itself.  All units written by
  the class come from `charCodeAt` (values `< 2^16`) or are copies of units
  already in a `Uint16Array`, so the `% 2^16` store conversion is the
  identity on every path modelled here and is omitted.
* We model the default configuration: `new StringBuilder(strOrSize)` with
  `type = Uint16Array` and `usePrependBuffer = true`, whose `_toPrepend`
  field is itself a `StringBuilder` constructed with `usePrependBuffer =
  false`.  The inner builder's own `_temp`/`_isDirty`/`_toPrepend` fields
  never influence any observable modelled here, so the inner builder is
  embedded as `Buf` with just `_str` and `_length`.
* JS `TypedArray` reads out of bounds yield `undefined`; storing
  `undefined` in a `Uint16Array` stores `0`.  Out-of-range list reads are
  therefore modelled with `List.getD _ 0`, and out-of-range typed-array
  writes are discarded (the write helpers only touch indices inside the
  array, exactly as a `Uint16Array` does).
* A thrown `RangeError` is modelled as `Option.none` of the operation's
  result type.
-/

namespace JsStringBuilder

/-- The exported constant `StringBuilderMinSize = 24`, the floor size of
every buffer allocation. -/
def StringBuilderMinSize : Nat := 24

/-- ECMAScript relative-index clamping used by `TypedArray.prototype.copyWithin`
and `subarray`: a negative index counts from the end and the result is
clamped into `[0, len]`. -/
def jsClampIdx (len i : Int) : Int :=
  if i < 0 then max (len + i) 0 else min i len

/-- `TypedArray.prototype.copyWithin(target, start, stop)` with move
semantics: after clamping, `count = min (stop - start) (len - target)`
units are copied from `[start, start + count)` to `[target, target + count)`
(reading from the original array, which is what a memmove observably does). -/
def jsCopyWithin (arr : List Nat) (target start stop : Int) : List Nat :=
  let len : Int := arr.length
  let dst := jsClampIdx len target
  let src := jsClampIdx len start
  let fin := jsClampIdx len stop
  let count := min (fin - src) (len - dst)
  (List.range arr.length).map (fun (j : Nat) =>
    if dst ≤ (j : Int) ∧ (j : Int) < dst + count then
      arr.getD (src + (j : Int) - dst).toNat 0
    else arr.getD j 0)

/-- `TypedArray.prototype.subarray(b, e)` (viewed as the unit list it
denotes): both endpoints are relative-clamped, and the result is
`arr[b', e')` (empty when `b' ≥ e'`). -/
def jsSubarray (arr : List Nat) (b e : Int) : List Nat :=
  (arr.take (jsClampIdx arr.length e).toNat).drop (jsClampIdx arr.length b).toNat

/-- `StringBuilder._writeString(str, index)`, the loop
`for i in [0, s.length): arr[i + index] = s.charCodeAt(i)`.
`StringBuilder._writeArray` performs the same element-wise copy of its
argument's units.  Writes falling outside the array are discarded, as a
`Uint16Array` store does. -/
def writeUnits (arr : List Nat) (index : Int) (s : List Nat) : List Nat :=
  (List.range arr.length).map (fun (j : Nat) =>
    if index ≤ (j : Int) ∧ (j : Int) < index + s.length then
      s.getD ((j : Int) - index).toNat 0
    else arr.getD j 0)

/-- `StringBuilder._expand(size)`: if `size > _str.length`, allocate a
zero-filled array of `(size + 1) * 2` units and copy the old contents to
its front (`new this._type((size+1)*2)` followed by `set(temp)`), i.e.
append `(size+1)*2 - len` zero units. -/
def expandBuf (size : Int) (arr : List Nat) : List Nat :=
  if size > (arr.length : Int) then
    arr ++ List.replicate (((size + 1) * 2).toNat - arr.length) 0
  else arr

/-- The `_toPrepend` builder (a `StringBuilder` constructed with
`usePrependBuffer = false`), restricted to the fields that are observable
through the outer builder: its storage `_str` and logical length
`_length`. -/
structure Buf where
  _str : List Nat
  _length : Int
deriving DecidableEq

/-- `StringBuilder.clear()` on the prepend builder: resets `_length` to 0
when it is nonzero (its `_temp`/`_isDirty` are not observable here). -/
def Buf.clear (b : Buf) : Buf :=
  if b._length ≠ 0 then { b with _length := 0 } else b

/-- `StringBuilder.charAt(index)` evaluated on the prepend builder, which
has no `_toPrepend` of its own: `_validateIndex(index)` against its own
`length` getter (= `_length`), then `String.fromCharCode(this._str[index])`.
The produced one-character string is represented by its unit. -/
def Buf.charCodeOf (b : Buf) (index : Int) : Option Nat :=
  let i := if index < 0 then index + b._length else index
  if i ≥ b._length ∨ i < 0 then none else some (b._str.getD i.toNat 0)

/-- The default-configuration `StringBuilder`: main storage `_str`, logical
length `_length`, the prepend builder `_toPrepend`, the materialization
cache `_temp` and its dirty flag `_isDirty`. -/
structure SB where
  _str : List Nat
  _length : Int
  _toPrepend : Buf
  _temp : List Nat
  _isDirty : Bool
deriving DecidableEq

/-- The public `length` getter:
`this._length + (this._toPrepend ? this._toPrepend._length : 0)`. -/
def SB.length (sb : SB) : Int := sb._length + sb._toPrepend._length

/-- `StringBuilder._applyPrepend()`: when the prepend builder holds data,
expand the main buffer to `pLen + len`, shift the main content right by
`pLen` (`copyWithin(pLen, 0, len)`), write the first `pLen` prepend-buffer
units at `[0, pLen)` in reverse storage order (the loop writes
`_str[i] = pStr[pLen - 1 - i]`, which for `pLen ≤ pStr.length` is exactly
the reverse of the first `pLen` units), add `pLen` to the main length,
mark dirty and clear the prepend builder. -/
def SB.applyPrepend (sb : SB) : SB :=
  if sb._toPrepend._length ≠ 0 then
    let str1 := expandBuf (sb._toPrepend._length + sb._length) sb._str
    let str2 := jsCopyWithin str1 sb._toPrepend._length 0 sb._length
    let str3 := writeUnits str2 0
      ((sb._toPrepend._str.take sb._toPrepend._length.toNat).reverse)
    { sb with _str := str3,
              _length := sb._length + sb._toPrepend._length,
              _isDirty := true,
              _toPrepend := sb._toPrepend.clear }
  else sb

/-- `StringBuilder.prepend(strOrArray)` for a string argument: empty input
is a no-op; otherwise expand the prepend builder to `pLen + s.length` and
run the loop `pStr[pLen + i] = s.charCodeAt(s.length - 1 - i)` for
`i ∈ [0, s.length)` — i.e. write `s.reverse` starting at `pLen` — then add
`s.length` to the prepend length and mark the builder dirty. -/
def SB.prepend (sb : SB) (s : List Nat) : SB :=
  if s.length = 0 then sb
  else
    let p1 := expandBuf (sb._toPrepend._length + s.length) sb._toPrepend._str
    let p2 := writeUnits p1 sb._toPrepend._length s.reverse
    { sb with
        _toPrepend := { _str := p2, _length := sb._toPrepend._length + s.length },
        _isDirty := true }

/-- `StringBuilder.clear()`: only when `_length ≠ 0`, reset `_length` to 0,
reset the cache and the dirty flag.  The prepend builder is not touched. -/
def SB.clear (sb : SB) : SB :=
  if sb._length ≠ 0 then { sb with _length := 0, _isDirty := false, _temp := [] }
  else sb

/-- `StringBuilder._validateIndex(index, allowEnd)`: a negative index is
translated by `index += this.length` (the getter, which includes pending
prepend data); the call throws `RangeError` (modelled `none`) if the result
is `≥ length + (allowEnd ? 1 : 0)` or `< 0`, and otherwise returns it. -/
def SB.validateIndex (sb : SB) (index : Int) (allowEnd : Bool) : Option Int :=
  let i := if index < 0 then index + sb.length else index
  if i ≥ sb.length + (if allowEnd then 1 else 0) ∨ i < 0 then none else some i

/-- `StringBuilder.charCodeAt(index)`: validate, then read the reversed
prepend region when `index < pLen`, else the main buffer at
`index - pLen`. -/
def SB.charCodeAt (sb : SB) (index : Int) : Option Nat :=
  match sb.validateIndex index false with
  | none => none
  | some i =>
    if i < sb._toPrepend._length then
      some (sb._toPrepend._str.getD (sb._toPrepend._length - 1 - i).toNat 0)
    else
      some (sb._str.getD (i - sb._toPrepend._length).toNat 0)

/-- `StringBuilder.charAt(index)`: validate, then either delegate to
`this._toPrepend.charAt(pLen - 1 - index)` or read the main buffer; the
returned one-character string is represented by its unit
(`String.fromCharCode` is injective on single units). -/
def SB.charAt (sb : SB) (index : Int) : Option Nat :=
  match sb.validateIndex index false with
  | none => none
  | some i =>
    if i < sb._toPrepend._length then
      sb._toPrepend.charCodeOf (sb._toPrepend._length - 1 - i)
    else
      some (sb._str.getD (i - sb._toPrepend._length).toNat 0)

/-- `StringBuilder.append(strOrArray)` for a string (or unit-sequence)
argument: empty input returns immediately; otherwise expand to
`this.length + s.length` (the getter!), write the units at the main
`_length` and extend the main `_length`.  No prepend merge happens. -/
def SB.append (sb : SB) (s : List Nat) : SB :=
  if s.length = 0 then sb
  else
    let str1 := expandBuf (sb.length + s.length) sb._str
    let str2 := writeUnits str1 sb._length s
    { sb with _str := str2, _length := sb._length + s.length, _isDirty := true }

/-- `StringBuilder.splice(index, delCount, toAdd)`: merge the prepend
buffer; clamp `delCount` (only when nonzero) to
`max (min (_length - index) delCount) 0` using the still-raw `index`;
validate `index` end-inclusively; `newSize = _length - delCount + objLength`;
expand; `copyWithin(index + objLength, index + delCount, _length)`; write
`toAdd` at `index` when nonempty; set `_length = newSize` and mark dirty. -/
def SB.splice (sb : SB) (index delCount : Int) (toAdd : List Nat) : Option SB :=
  let sb := sb.applyPrepend
  let objLength : Int := toAdd.length
  let d := if delCount ≠ 0 then max (min (sb._length - index) delCount) 0 else delCount
  match sb.validateIndex index true with
  | none => none
  | some i =>
    let newSize := sb._length - d + objLength
    let str1 := expandBuf newSize sb._str
    let str2 := jsCopyWithin str1 (i + objLength) (i + d) sb._length
    let str3 := if objLength ≠ 0 then writeUnits str2 i toAdd else str2
    some { sb with _str := str3, _length := newSize, _isDirty := true }

/-- `StringBuilder.insert(index, strOrArray)`: index 0 routes to `prepend`
(the prepend builder exists in the default configuration), any other index
routes to `splice(index, 0, strOrArray)`. -/
def SB.insert (sb : SB) (index : Int) (s : List Nat) : Option SB :=
  if index = 0 then some (sb.prepend s) else sb.splice index 0 s

/-- `StringBuilder.write(index, strOrArray)`: empty input returns
immediately; otherwise merge the prepend buffer, set
`newLength = max (index + s.length) _length`, expand, overwrite the units
at `[index, index + s.length)` without shifting, set `_length = newLength`
and mark dirty.  The index is never validated. -/
def SB.write (sb : SB) (index : Int) (s : List Nat) : SB :=
  if s.length = 0 then sb
  else
    let sb := sb.applyPrepend
    let newLength := max (index + (s.length : Int)) sb._length
    let str1 := expandBuf newLength sb._str
    let str2 := writeUnits str1 index s
    { sb with _str := str2, _length := newLength, _isDirty := true }

/-- The materializing read `str()` (no argument): merge the prepend buffer;
if dirty, decode `_str.subarray(0, _length)` into `_temp`; return `_temp`.
The source does not reset `_isDirty`.  Returns the produced string together
with the builder state after the call. -/
def SB.strGet (sb : SB) : List Nat × SB :=
  let sb := sb.applyPrepend
  if sb._isDirty then
    let t := jsSubarray sb._str 0 sb._length
    (t, { sb with _temp := t })
  else (sb._temp, sb)

/-- The setter `str(s)`: expand to `s.length`, copy the units of `s` to the
front, set `_length = s.length`, clear the prepend builder, cache `s` and
reset the dirty flag. -/
def SB.strSet (sb : SB) (s : List Nat) : SB :=
  let str1 := expandBuf s.length sb._str
  let str2 := writeUnits str1 0 s
  { sb with _str := str2, _length := s.length,
            _toPrepend := sb._toPrepend.clear, _temp := s, _isDirty := false }

/-- `new StringBuilder()` (default size argument `StringBuilderMinSize`):
both buffers start as 24 zero units, lengths 0, clean empty cache. -/
def SB.mkDefault : SB :=
  { _str := List.replicate StringBuilderMinSize 0, _length := 0,
    _toPrepend := { _str := List.replicate StringBuilderMinSize 0, _length := 0 },
    _temp := [], _isDirty := false }

/-- `new StringBuilder(s)` for a string argument: allocate
`max ((s.length + 1) * 2) StringBuilderMinSize` units, then `this.str(s)`. -/
def SB.ofString (s : List Nat) : SB :=
  let sb : SB :=
    { SB.mkDefault with
        _str := List.replicate (max ((s.length + 1) * 2) StringBuilderMinSize) 0 }
  sb.strSet s

/-- The inner loop of literal `search`:
`for j in [0, q.length): if (charCodeAt(i+j) !== q.charCodeAt(j)) {match = false; break}`.
A `RangeError` from `charCodeAt` propagates (`none`).  Structured with a
fuel argument, invoked with `fuel = q.length` and `j = 0` so that the fuel
never runs out before the loop guard fails. -/
def SB.matchLoop (sb : SB) (q : List Nat) (i : Int) : Nat → Nat → Option Bool
  | _, 0 => some true
  | j, fuel + 1 =>
    if j < q.length then
      match sb.charCodeAt (i + (j : Int)) with
      | none => none
      | some c => if c = q.getD j 0 then sb.matchLoop q i (j + 1) fuel else some false
    else some true

/-- The outer loop of literal `search`: scan start positions `i` from the
validated `startAt` while `i < e`, returning the first full match, `-1`
when the scan ends, and propagating a `RangeError` (`none`) raised by the
unit comparisons.  Invoked with `fuel = (e - startAt).toNat`, which bounds
the number of loop iterations exactly. -/
def SB.searchLoop (sb : SB) (q : List Nat) (e : Int) : Int → Nat → Option Int
  | _, 0 => some (-1)
  | i, fuel + 1 =>
    if i < e then
      match sb.matchLoop q i 0 q.length with
      | none => none
      | some true => some i
      | some false => sb.searchLoop q e (i + 1) fuel
    else some (-1)

/-- `StringBuilder.search(query, startAt, end)` for a literal (string)
query: empty builder returns `-1` before any validation; `startAt` is
validated (a `RangeError` propagates); an empty query returns `-1`;
`end` defaults to `length - q.length + 1` and a caller-supplied `end` is
clamped by `min` to that bound; the resulting `end` is validated
end-inclusively (so a negative value wraps by `+ length` and may throw);
then the scan runs over `[startAt, end)`. -/
def SB.search (sb : SB) (q : List Nat) (startAt : Int) (endOpt : Option Int) :
    Option Int :=
  if sb.length = 0 then some (-1)
  else
    match sb.validateIndex startAt false with
    | none => none
    | some s =>
      if q.length = 0 then some (-1)
      else
        let e0 : Int :=
          match endOpt with
          | none => sb.length - q.length + 1
          | some e => min e (sb.length - q.length + 1)
        match sb.validateIndex e0 true with
        | none => none
        | some e => sb.searchLoop q e s (e - s).toNat

/-- `StringBuilder.substring(start, end?)`: merge the prepend buffer;
validate `start` (a `RangeError` propagates); default `end` to the main
`_length`, otherwise clamp it to `_length` first and validate it
end-inclusively; decode `_str.subarray(start, end)`.  Returns the produced
string together with the builder state after the call — the merge happens
even when validation then throws. -/
def SB.substring (sb : SB) (start : Int) (endOpt : Option Int) :
    Option (List Nat) × SB :=
  let m := sb.applyPrepend
  match m.validateIndex start false with
  | none => (none, m)
  | some s =>
    match endOpt with
    | none => (some (jsSubarray m._str s m._length), m)
    | some e =>
      let e1 := if e > m._length then m._length else e
      match m.validateIndex e1 true with
      | none => (none, m)
      | some e2 => (some (jsSubarray m._str s e2), m)

/-- `StringBuilder.replace(query, value, startAt, end)` for a literal
(string) query: merge the prepend buffer; an empty query returns the
(merged) builder; locate the first occurrence via `search` (a `RangeError`
propagates; a miss returns the merged builder); else
`newLength = _length + value.length - query.length`, expand,
`copyWithin(idx + value.length - query.length, idx + query.length, _length)`
(the code's shift target, embedded exactly as written), write `value` at
`idx`, set the length and mark dirty. -/
def SB.replace (sb : SB) (q v : List Nat) (startAt : Int) (endOpt : Option Int) :
    Option SB :=
  let m := sb.applyPrepend
  if q.length = 0 then some m
  else
    match m.search q startAt endOpt with
    | none => none
    | some idx =>
      if idx = -1 then some m
      else
        let newLength := m._length + v.length - q.length
        let str1 := expandBuf newLength m._str
        let str2 := jsCopyWithin str1 (idx + v.length - q.length) (idx + q.length)
          m._length
        let str3 := writeUnits str2 idx v
        some { m with _str := str3, _length := newLength, _isDirty := true }

/-- `StringBuilder.shrink()` evaluated on the prepend builder (which has no
prepend buffer of its own): `newBufLength = max(StringBuilderMinSize,
(length + 1) * 2)` with its own length getter (= `_length`); return
unchanged when the capacity is already below that bound, else copy
`_str[0, _length)` to the front of a zero-filled buffer of the new size. -/
def Buf.shrink (b : Buf) : Buf :=
  let newBufLength : Int := max (StringBuilderMinSize : Int) ((b._length + 1) * 2)
  if (b._str.length : Int) < newBufLength then b
  else
    let rebuilt := writeUnits (List.replicate newBufLength.toNat 0) 0
      (jsSubarray b._str 0 b._length)
    { b with _str := rebuilt }

/-- `StringBuilder.shrink()`: first shrink the prepend builder, then
compute `newBufLength = max(StringBuilderMinSize, (this.length + 1) * 2)`
from the length getter (which includes pending prepend units, per the
source comment) and rebuild the main buffer the same way, copying only
`_str[0, _length)`.  No prepend merge happens anywhere in `shrink`. -/
def SB.shrink (sb : SB) : SB :=
  let sb1 : SB := { sb with _toPrepend := sb._toPrepend.shrink }
  let newBufLength : Int := max (StringBuilderMinSize : Int) ((sb1.length + 1) * 2)
  if (sb1._str.length : Int) < newBufLength then sb1
  else
    let rebuilt := writeUnits (List.replicate newBufLength.toNat 0) 0
      (jsSubarray sb1._str 0 sb1._length)
    { sb1 with _str := rebuilt }

/-- The unit-comparison loop of `equals` for a string (or unit-sequence)
argument: `for i in [0, value.length): if value.charCodeAt(i) !==
this.charCodeAt(i) return false`.  A `RangeError` from `charCodeAt`
propagates (`none`) — it cannot fire on the paths `equals` takes, since the
loop only runs when `value.length` equals the builder's length.  Invoked
with `fuel = value.length` and `i = 0`, so the fuel never runs out before
the loop guard fails. -/
def SB.equalsLoop (sb : SB) (value : List Nat) : Nat → Nat → Option Bool
  | _, 0 => some true
  | i, fuel + 1 =>
    if i < value.length then
      match sb.charCodeAt (i : Int) with
      | none => none
      | some c =>
        if value.getD i 0 ≠ c then some false else sb.equalsLoop value (i + 1) fuel
    else some true

/-- `StringBuilder.equals(value)` for a string (or unit-sequence) argument:
a length mismatch is `false`; two empty operands are `true`; otherwise
compare unit-by-unit through `charCodeAt`, which reads across both buffers.
(The `Object.is` identity shortcut never fires for a raw-string operand.)
`equals` performs no assignment and no prepend merge. -/
def SB.equals (sb : SB) (value : List Nat) : Option Bool :=
  if (value.length : Int) ≠ sb.length then some false
  else if value.length = 0 ∧ sb.length = 0 then some true
  else sb.equalsLoop value 0 value.length

/-- The logical string held by a builder: the reversed filled part of the
prepend buffer followed by the filled part of the main buffer (the spec's
"contents of PrependBuffer conceptually precede all contents of the main
buffer"). -/
def SB.content (sb : SB) : List Nat :=
  (sb._toPrepend._str.take sb._toPrepend._length.toNat).reverse ++
    sb._str.take sb._length.toNat

/-- Well-formedness of a builder state: both logical lengths lie between 0
and their buffer's capacity (the spec invariant
`0 <= logicalLength <= storage.length`, for both buffers).  Every state
reachable through the public operations from a constructor satisfies this,
except for the `splice` defect recorded against claim C1. -/
def SB.WF (sb : SB) : Prop :=
  0 ≤ sb._length ∧ sb._length ≤ (sb._str.length : Int) ∧
  0 ≤ sb._toPrepend._length ∧ sb._toPrepend._length ≤ (sb._toPrepend._str.length : Int)

/-- The materialization-cache invariant: when the dirty flag is clear and no
prepend data is pending, `_temp` holds exactly the decoded
`_str[0, _length)`. -/
def SB.CacheOK (sb : SB) : Prop :=
  sb._isDirty = false → sb._toPrepend._length = 0 →
    sb._temp = sb._str.take sb._length.toNat

instance (sb : SB) : Decidable sb.WF := by unfold SB.WF; infer_instance

instance (sb : SB) : Decidable sb.CacheOK := by unfold SB.CacheOK; infer_instance

/-- Spec-side match predicate for literal search: position `i` of the
logical string `c` is a match for query `q` when `i` is non-negative and
every unit of `q` coincides with the unit of `c` at offset `i` (stated as
the `q.length`-unit slice of `c` at `i` being exactly `q`, which also
forces `i + q.length ≤ c.length`). -/
def MatchAt (c q : List Nat) (i : Int) : Prop :=
  0 ≤ i ∧ (c.drop i.toNat).take q.length = q

instance (c q : List Nat) (i : Int) : Decidable (MatchAt c q i) := by
  unfold MatchAt; infer_instance

/-! Lemmas about the raw-buffer primitives. -/

theorem writeUnits_length (arr : List Nat) (index : Int) (s : List Nat) :
    (writeUnits arr index s).length = arr.length := by
  simp [writeUnits]

theorem writeUnits_getD (arr : List Nat) (index : Int) (s : List Nat) (j : Nat)
    (h : j < arr.length) :
    (writeUnits arr index s).getD j 0 =
      if index ≤ (j : Int) ∧ (j : Int) < index + s.length then
        s.getD ((j : Int) - index).toNat 0
      else arr.getD j 0 := by
  simp [writeUnits, List.getD_eq_getElem?_getD, List.getElem?_map, List.getElem?_range, h]

theorem jsCopyWithin_length (arr : List Nat) (target start stop : Int) :
    (jsCopyWithin arr target start stop).length = arr.length := by
  simp [jsCopyWithin]

theorem jsCopyWithin_getD (arr : List Nat) (target start stop : Int) (j : Nat)
    (h : j < arr.length) :
    (jsCopyWithin arr target start stop).getD j 0 =
      (let len : Int := arr.length
       let dst := jsClampIdx len target
       let src := jsClampIdx len start
       let fin := jsClampIdx len stop
       let count := min (fin - src) (len - dst)
       if dst ≤ (j : Int) ∧ (j : Int) < dst + count then
         arr.getD (src + (j : Int) - dst).toNat 0
       else arr.getD j 0) := by
  simp [jsCopyWithin, List.getD_eq_getElem?_getD, List.getElem?_map, List.getElem?_range, h]

theorem length_expandBuf_ge_size (size : Int) (arr : List Nat) :
    size ≤ ((expandBuf size arr).length : Int) := by
  unfold expandBuf
  by_cases h : size > (arr.length : Int)
  · simp only [h, if_true, List.length_append, List.length_replicate]
    have h0 : (0 : Int) ≤ arr.length := by positivity
    have h2 : (arr.length : Int) < (size + 1) * 2 := by nlinarith
    omega
  · simp only [h, if_false]
    omega

theorem length_expandBuf_ge (size : Int) (arr : List Nat) :
    arr.length ≤ (expandBuf size arr).length := by
  unfold expandBuf
  by_cases h : size > (arr.length : Int) <;> simp [h]

theorem expandBuf_getD (size : Int) (arr : List Nat) (j : Nat) (h : j < arr.length) :
    (expandBuf size arr).getD j 0 = arr.getD j 0 := by
  unfold expandBuf
  by_cases hc : size > (arr.length : Int)
  · simp only [hc, if_true]
    rw [List.getD_eq_getElem?_getD, List.getElem?_append_left h, ← List.getD_eq_getElem?_getD]
  · simp [hc]

theorem expandBuf_take (size : Int) (arr : List Nat) (k : Nat) (h : k ≤ arr.length) :
    (expandBuf size arr).take k = arr.take k := by
  unfold expandBuf
  by_cases hc : size > (arr.length : Int)
  · simp only [hc, if_true]
    rw [List.take_append_of_le_length h]
  · simp [hc]

theorem jsSubarray_take (arr : List Nat) (len : Int) (h0 : 0 ≤ len)
    (h1 : len ≤ (arr.length : Int)) :
    jsSubarray arr 0 len = arr.take len.toNat := by
  unfold jsSubarray jsClampIdx
  have hb : ¬ ((0 : Int) < 0) := by omega
  have hl : (0 : Int) ≤ arr.length := by positivity
  simp only [if_neg (by omega : ¬ (len < 0)), if_neg hb]
  have : min len (arr.length : Int) = len := by omega
  rw [this]
  have : min (0 : Int) (arr.length : Int) = 0 := by omega
  rw [this]
  simp

/-! General getD-level list helpers used to trace buffer contents. -/

theorem list_eq_of_getD (l1 l2 : List Nat) (hlen : l1.length = l2.length)
    (h : ∀ n, n < l1.length → l1.getD n 0 = l2.getD n 0) : l1 = l2 := by
  refine List.ext_getElem hlen (fun n h1 h2 => ?_)
  have hx := h n h1
  rwa [List.getD_eq_getElem _ _ h1, List.getD_eq_getElem _ _ h2] at hx

theorem getD_take (l : List Nat) (k n : Nat) (h : n < k) :
    (l.take k).getD n 0 = l.getD n 0 := by
  by_cases h2 : n < l.length
  · rw [List.getD_eq_getElem _ _ (by simp; omega), List.getD_eq_getElem _ _ h2,
      List.getElem_take]
  · rw [List.getD_eq_default _ _ (by simp; omega), List.getD_eq_default _ _ (by omega)]

theorem getD_reverse (l : List Nat) (n : Nat) (h : n < l.length) :
    l.reverse.getD n 0 = l.getD (l.length - 1 - n) 0 := by
  rw [List.getD_eq_getElem _ _ (by simpa using h), List.getD_eq_getElem _ _ (by omega),
    List.getElem_reverse]

/-! Facts about `_applyPrepend`. -/

theorem applyPrepend_of_empty (sb : SB) (h : sb._toPrepend._length = 0) :
    sb.applyPrepend = sb := by
  simp [SB.applyPrepend, h]

theorem applyPrepend_toPrepend_length (sb : SB) :
    sb.applyPrepend._toPrepend._length = 0 := by
  unfold SB.applyPrepend
  by_cases h : sb._toPrepend._length ≠ 0
  · simp [h, Buf.clear]
  · push_neg at h; simp [h]

theorem applyPrepend_toPrepend_str (sb : SB) :
    sb.applyPrepend._toPrepend._str = sb._toPrepend._str := by
  unfold SB.applyPrepend
  by_cases h : sb._toPrepend._length ≠ 0
  · simp [h, Buf.clear]
  · simp [h]

theorem applyPrepend_mainLength (sb : SB) :
    sb.applyPrepend._length = sb.length := by
  unfold SB.applyPrepend SB.length
  by_cases h : sb._toPrepend._length ≠ 0
  · simp [h]
  · push_neg at h; simp [h]

theorem applyPrepend_length_getter (sb : SB) :
    sb.applyPrepend.length = sb.length := by
  have h1 := applyPrepend_toPrepend_length sb
  have h2 := applyPrepend_mainLength sb
  unfold SB.length at h2 ⊢
  omega

theorem applyPrepend_temp (sb : SB) :
    sb.applyPrepend._temp = sb._temp := by
  unfold SB.applyPrepend
  by_cases h : sb._toPrepend._length ≠ 0 <;> simp [h]

theorem applyPrepend_isDirty_of_pending (sb : SB) (h : sb._toPrepend._length ≠ 0) :
    sb.applyPrepend._isDirty = true := by
  simp [SB.applyPrepend, h]

theorem applyPrepend_main_capacity (sb : SB) (hwf : sb.WF) :
    sb.applyPrepend._length ≤ (sb.applyPrepend._str.length : Int) := by
  obtain ⟨h1, h2, h3, h4⟩ := hwf
  unfold SB.applyPrepend
  by_cases h : sb._toPrepend._length ≠ 0
  · rw [if_pos h]
    have e1 := length_expandBuf_ge_size (sb._toPrepend._length + sb._length) sb._str
    have e2 := jsCopyWithin_length (expandBuf (sb._toPrepend._length + sb._length) sb._str)
      sb._toPrepend._length 0 sb._length
    have e3 := writeUnits_length (jsCopyWithin
      (expandBuf (sb._toPrepend._length + sb._length) sb._str)
      sb._toPrepend._length 0 sb._length) 0
      ((sb._toPrepend._str.take sb._toPrepend._length.toNat).reverse)
    simp only [e3, e2]
    omega
  · rw [if_neg h]; omega

/-- After a pending merge, the filled part of the main buffer is exactly the
logical string the builder held before the merge. -/
theorem applyPrepend_main_take (sb : SB) (hwf : sb.WF) :
    sb.applyPrepend._str.take sb.applyPrepend._length.toNat = sb.content := by
  obtain ⟨h1, h2, h3, h4⟩ := hwf
  by_cases h : sb._toPrepend._length ≠ 0
  · have hplen : (0:Int) < sb._toPrepend._length := lt_of_le_of_ne h3 (Ne.symm h)
    unfold SB.applyPrepend SB.content
    rw [if_pos h]
    dsimp only
    set P := sb._toPrepend._str with hP
    set pL := sb._toPrepend._length with hpL
    set A := sb._str with hA
    set L := sb._length with hL
    set str1 := expandBuf (pL + L) A with hstr1
    set str2 := jsCopyWithin str1 pL 0 L with hstr2
    set revP := (P.take pL.toNat).reverse with hrevP
    set str3 := writeUnits str2 0 revP with hstr3
    have hlen1 : pL + L ≤ (str1.length : Int) := length_expandBuf_ge_size _ _
    have hlen1' : A.length ≤ str1.length := length_expandBuf_ge _ _
    have hlen2 : str2.length = str1.length := jsCopyWithin_length _ _ _ _
    have hlen3 : str3.length = str2.length := writeUnits_length _ _ _
    have hrevlen : revP.length = pL.toNat := by
      rw [hrevP, List.length_reverse, List.length_take]
      omega
    -- the target equality, element by element
    refine list_eq_of_getD _ _ ?_ ?_
    · simp only [List.length_take, List.length_append, hrevlen, hlen3, hlen2,
        List.length_take]
      omega
    · intro n hn
      simp only [List.length_take, hlen3, hlen2] at hn
      have hnn : n < (L + pL).toNat := by omega
      have hn3 : n < str3.length := by omega
      rw [getD_take _ _ _ hnn]
      rw [hstr3, writeUnits_getD _ _ _ _ (by omega)]
      by_cases hcase : n < pL.toNat
      · -- the reversed prepend region
        have hg : (0:Int) ≤ (n:Int) ∧ (n:Int) < 0 + (revP.length : Int) := by
          constructor <;> [positivity; omega]
        rw [if_pos hg]
        have : ((n:Int) - 0).toNat = n := by omega
        rw [this, List.getD_append _ _ _ _ (by omega)]
      · -- the shifted main region
        rw [if_neg (by omega)]
        rw [hstr2, jsCopyWithin_getD _ _ _ _ _ (by omega)]
        simp only []
        have hc0 : jsClampIdx (str1.length) pL = pL := by
          unfold jsClampIdx; rw [if_neg (by omega)]; omega
        have hc1 : jsClampIdx (str1.length) 0 = 0 := by
          unfold jsClampIdx; rw [if_neg (by omega)]; omega
        have hc2 : jsClampIdx (str1.length) L = L := by
          unfold jsClampIdx; rw [if_neg (by omega)]; omega
        rw [hc0, hc1, hc2]
        have hcount : min (L - 0) ((str1.length : Int) - pL) = L := by omega
        rw [hcount]
        have hg : pL ≤ (n:Int) ∧ (n:Int) < pL + L := by omega
        rw [if_pos hg]
        have hidx : (0 + (n:Int) - pL).toNat = n - pL.toNat := by omega
        rw [hidx]
        rw [hstr1, expandBuf_getD _ _ _ (by omega)]
        rw [List.getD_append_right _ _ _ _ (by omega), hrevlen]
        rw [getD_take _ _ _ (by omega)]
  · push_neg at h
    rw [applyPrepend_of_empty sb h]
    unfold SB.content
    rw [h]
    simp

theorem applyPrepend_content (sb : SB) (hwf : sb.WF) :
    sb.applyPrepend.content = sb.content := by
  unfold SB.content
  rw [applyPrepend_toPrepend_length]
  simpa using applyPrepend_main_take sb hwf

theorem applyPrepend_WF (sb : SB) (hwf : sb.WF) : sb.applyPrepend.WF := by
  obtain ⟨h1, h2, h3, h4⟩ := hwf
  refine ⟨?_, applyPrepend_main_capacity sb ⟨h1, h2, h3, h4⟩, ?_, ?_⟩
  · rw [applyPrepend_mainLength]; unfold SB.length; omega
  · rw [applyPrepend_toPrepend_length]
  · rw [applyPrepend_toPrepend_length]; positivity

/-! Facts about index validation and the unit-level reads. -/

theorem content_length (sb : SB) (hwf : sb.WF) :
    (sb.content.length : Int) = sb.length := by
  obtain ⟨h1, h2, h3, h4⟩ := hwf
  unfold SB.content SB.length
  simp only [List.length_append, List.length_reverse, List.length_take]
  omega

theorem validateIndex_some (sb : SB) (i : Int) (ae : Bool) (j : Int)
    (h : sb.validateIndex i ae = some j) :
    j = (if i < 0 then i + sb.length else i) ∧ 0 ≤ j ∧
      j < sb.length + (if ae then 1 else 0) := by
  unfold SB.validateIndex at h
  by_cases hc : (if i < 0 then i + sb.length else i) ≥
      sb.length + (if ae then 1 else 0) ∨ (if i < 0 then i + sb.length else i) < 0
  · rw [if_pos hc] at h; exact absurd h (by simp)
  · rw [if_neg hc] at h
    push_neg at hc
    exact ⟨by injection h with h; omega, by injection h with h; omega,
      by injection h with h; omega⟩

theorem validateIndex_none_iff (sb : SB) (i : Int) (ae : Bool) :
    sb.validateIndex i ae = none ↔
      ((if i < 0 then i + sb.length else i) < 0 ∨
        sb.length + (if ae then 1 else 0) ≤ (if i < 0 then i + sb.length else i)) := by
  unfold SB.validateIndex
  by_cases hc : (if i < 0 then i + sb.length else i) ≥
      sb.length + (if ae then 1 else 0) ∨ (if i < 0 then i + sb.length else i) < 0
  · rw [if_pos hc]; simpa using by omega
  · rw [if_neg hc]; push_neg at hc; simpa using by omega

theorem validateIndex_of_in_range (sb : SB) (i : Int) (ae : Bool) (h0 : 0 ≤ i)
    (h1 : i < sb.length + (if ae then 1 else 0)) :
    sb.validateIndex i ae = some i := by
  unfold SB.validateIndex
  rw [if_neg (by omega : ¬ i < 0), if_neg (by omega)]

theorem charCodeAt_content (sb : SB) (hwf : sb.WF) (i j : Int)
    (h : sb.validateIndex i false = some j) :
    sb.charCodeAt i = some (sb.content.getD j.toNat 0) := by
  obtain ⟨hv, h0, hlt⟩ := validateIndex_some sb i false j h
  obtain ⟨h1, h2, h3, h4⟩ := hwf
  have hlen : j < sb._length + sb._toPrepend._length := by
    unfold SB.length at hlt; simpa using hlt
  unfold SB.charCodeAt
  rw [h]
  dsimp only
  unfold SB.content
  have hrevlen : ((sb._toPrepend._str.take sb._toPrepend._length.toNat).reverse).length =
      sb._toPrepend._length.toNat := by
    rw [List.length_reverse, List.length_take]; omega
  by_cases hc : j < sb._toPrepend._length
  · rw [if_pos hc]
    congr 1
    rw [List.getD_append _ _ _ _ (by omega), getD_reverse _ _ (by simp; omega),
      List.length_take]
    rw [getD_take _ _ _ (by omega)]
    congr 1
    omega
  · rw [if_neg hc]
    congr 1
    rw [List.getD_append_right _ _ _ _ (by omega), hrevlen, getD_take _ _ _ (by omega)]
    congr 1
    omega

theorem charAt_eq_charCodeAt (sb : SB) (i : Int) : sb.charAt i = sb.charCodeAt i := by
  unfold SB.charAt SB.charCodeAt
  cases hv : sb.validateIndex i false with
  | none => rfl
  | some j =>
    obtain ⟨hvv, h0, hlt⟩ := validateIndex_some sb i false j hv
    dsimp only
    by_cases hc : j < sb._toPrepend._length
    · rw [if_pos hc, if_pos hc]
      unfold Buf.charCodeOf
      rw [if_neg (by omega : ¬ sb._toPrepend._length - 1 - j < 0),
        if_neg (by omega : ¬ (sb._toPrepend._length - 1 - j ≥ sb._toPrepend._length ∨
          sb._toPrepend._length - 1 - j < 0))]
    · rw [if_neg hc, if_neg hc]

/-! Facts about `prepend` and the materializing read. -/

theorem prepend_main_unchanged (sb : SB) (s : List Nat) :
    (sb.prepend s)._str = sb._str ∧ (sb.prepend s)._length = sb._length ∧
      (sb.prepend s)._temp = sb._temp := by
  unfold SB.prepend
  by_cases h : s.length = 0 <;> simp [h]

theorem prepend_toPrepend_length (sb : SB) (s : List Nat) :
    (sb.prepend s)._toPrepend._length = sb._toPrepend._length + s.length := by
  unfold SB.prepend
  by_cases h : s.length = 0
  · rw [if_pos h]; omega
  · rw [if_neg h]

theorem prepend_length_getter (sb : SB) (s : List Nat) :
    (sb.prepend s).length = sb.length + s.length := by
  have h1 := prepend_toPrepend_length sb s
  have h2 := (prepend_main_unchanged sb s).2.1
  unfold SB.length
  omega

theorem prepend_isDirty (sb : SB) (s : List Nat) (h : s ≠ []) :
    (sb.prepend s)._isDirty = true := by
  unfold SB.prepend
  rw [if_neg (by simpa using h)]

theorem prepend_WF (sb : SB) (hwf : sb.WF) (s : List Nat) : (sb.prepend s).WF := by
  obtain ⟨h1, h2, h3, h4⟩ := hwf
  unfold SB.prepend
  by_cases h : s.length = 0
  · rw [if_pos h]; exact ⟨h1, h2, h3, h4⟩
  · rw [if_neg h]
    refine ⟨h1, h2, by positivity, ?_⟩
    dsimp only
    rw [writeUnits_length]
    calc sb._toPrepend._length + (s.length : Int)
        ≤ ((expandBuf (sb._toPrepend._length + s.length) sb._toPrepend._str).length : Int) :=
          length_expandBuf_ge_size _ _
      _ = _ := rfl

theorem prepend_content (sb : SB) (hwf : sb.WF) (s : List Nat) :
    (sb.prepend s).content = s ++ sb.content := by
  obtain ⟨h1, h2, h3, h4⟩ := hwf
  unfold SB.prepend
  by_cases h : s.length = 0
  · rw [if_pos h]
    rw [List.length_eq_zero] at h
    rw [h, List.nil_append]
  · rw [if_neg h]
    unfold SB.content
    dsimp only
    set P := sb._toPrepend._str with hP
    set pL := sb._toPrepend._length with hpL
    set p1 := expandBuf (pL + s.length) P with hp1
    set p2 := writeUnits p1 pL s.reverse with hp2
    have hlen1 : pL + s.length ≤ (p1.length : Int) := length_expandBuf_ge_size _ _
    have hlen1' : P.length ≤ p1.length := length_expandBuf_ge _ _
    have hlen2 : p2.length = p1.length := writeUnits_length _ _ _
    have hkey : p2.take (pL + s.length).toNat = P.take pL.toNat ++ s.reverse := by
      refine list_eq_of_getD _ _ ?_ ?_
      · simp only [List.length_take, List.length_append, List.length_reverse, hlen2]
        omega
      · intro n hn
        simp only [List.length_take, hlen2] at hn
        have hnn : n < (pL + s.length).toNat := by omega
        rw [getD_take _ _ _ hnn, hp2, writeUnits_getD _ _ _ _ (by omega)]
        by_cases hc : n < pL.toNat
        · rw [if_neg (by push_neg; intro hle; simp; omega)]
          rw [hp1, expandBuf_getD _ _ _ (by omega)]
          rw [List.getD_append _ _ _ _ (by simp; omega), getD_take _ _ _ hc]
        · rw [if_pos (by constructor <;> [omega; (simp; omega)])]
          rw [List.getD_append_right _ _ _ _ (by simp; omega)]
          have : ((n : Int) - pL).toNat = n - (P.take pL.toNat).length := by
            simp only [List.length_take]; omega
          rw [this]
    rw [hkey, List.reverse_append, List.reverse_reverse, List.append_assoc]

theorem prepend_CacheOK (sb : SB) (hc : sb.CacheOK) (s : List Nat) :
    (sb.prepend s).CacheOK := by
  unfold SB.prepend
  by_cases h : s.length = 0
  · rw [if_pos h]; exact hc
  · rw [if_neg h]
    intro hd
    exact absurd hd (by simp)

theorem strGet_fst (sb : SB) (hwf : sb.WF) (hc : sb.CacheOK) :
    sb.strGet.fst = sb.content := by
  unfold SB.strGet
  dsimp only
  by_cases hd : sb.applyPrepend._isDirty
  · rw [if_pos hd]
    dsimp only
    obtain ⟨m1, m2, m3, m4⟩ := applyPrepend_WF sb hwf
    rw [jsSubarray_take _ _ m1 m2]
    exact applyPrepend_main_take sb hwf
  · have hp0 : sb._toPrepend._length = 0 := by
      by_contra hne
      exact hd (applyPrepend_isDirty_of_pending sb hne)
    rw [applyPrepend_of_empty sb hp0] at hd ⊢
    rw [if_neg hd]
    have ht := hc (by simpa using hd) hp0
    unfold SB.content
    rw [hp0, ht]
    simp

theorem strGet_snd_toPrepend_length (sb : SB) :
    sb.strGet.snd._toPrepend._length = 0 := by
  unfold SB.strGet
  dsimp only
  by_cases hd : sb.applyPrepend._isDirty
  · rw [if_pos hd]
    exact applyPrepend_toPrepend_length sb
  · rw [if_neg hd]
    exact applyPrepend_toPrepend_length sb

/-! The assignment-free reads commute with the prepend merge, and the
merge/non-merge behavior of each remaining public operation. -/

theorem validateIndex_applyPrepend (sb : SB) (i : Int) (ae : Bool) :
    sb.applyPrepend.validateIndex i ae = sb.validateIndex i ae := by
  unfold SB.validateIndex
  rw [applyPrepend_length_getter]

theorem charCodeAt_applyPrepend (sb : SB) (hwf : sb.WF) (i : Int) :
    sb.charCodeAt i = sb.applyPrepend.charCodeAt i := by
  have hv : sb.applyPrepend.validateIndex i false = sb.validateIndex i false :=
    validateIndex_applyPrepend sb i false
  cases hvi : sb.validateIndex i false with
  | none =>
    unfold SB.charCodeAt
    rw [hvi, hv, hvi]
  | some j =>
    rw [charCodeAt_content sb hwf i j hvi,
      charCodeAt_content sb.applyPrepend (applyPrepend_WF sb hwf) i j (hv.trans hvi),
      applyPrepend_content sb hwf]

theorem charAt_applyPrepend (sb : SB) (hwf : sb.WF) (i : Int) :
    sb.charAt i = sb.applyPrepend.charAt i := by
  rw [charAt_eq_charCodeAt, charAt_eq_charCodeAt]
  exact charCodeAt_applyPrepend sb hwf i

theorem append_toPrepend (sb : SB) (s : List Nat) :
    (sb.append s)._toPrepend = sb._toPrepend := by
  unfold SB.append
  by_cases h : s.length = 0 <;> simp [h]

theorem Buf_shrink_length (b : Buf) : b.shrink._length = b._length := by
  unfold Buf.shrink
  dsimp only
  split <;> rfl

theorem shrink_toPrepend_length (sb : SB) :
    sb.shrink._toPrepend._length = sb._toPrepend._length := by
  unfold SB.shrink
  dsimp only
  split <;> exact Buf_shrink_length sb._toPrepend

theorem substring_snd (sb : SB) (start : Int) (endOpt : Option Int) :
    (sb.substring start endOpt).snd = sb.applyPrepend := by
  unfold SB.substring
  dsimp only
  cases hv : sb.applyPrepend.validateIndex start false with
  | none => rfl
  | some s =>
    cases endOpt with
    | none => rfl
    | some e =>
      dsimp only
      cases hv2 : sb.applyPrepend.validateIndex
        (if e > sb.applyPrepend._length then sb.applyPrepend._length else e) true <;> rfl

theorem replace_toPrepend_length (sb : SB) (q v : List Nat) (startAt : Int)
    (endOpt : Option Int) (sb2 : SB) (h : sb.replace q v startAt endOpt = some sb2) :
    sb2._toPrepend._length = 0 := by
  unfold SB.replace at h
  dsimp only at h
  by_cases hq : q.length = 0
  · rw [if_pos hq] at h
    injection h with h
    rw [← h]
    exact applyPrepend_toPrepend_length sb
  · rw [if_neg hq] at h
    cases hs : sb.applyPrepend.search q startAt endOpt with
    | none => rw [hs] at h; exact absurd h (by simp)
    | some idx =>
      rw [hs] at h
      dsimp only at h
      by_cases hi : idx = -1
      · rw [if_pos hi] at h
        injection h with h
        rw [← h]
        exact applyPrepend_toPrepend_length sb
      · rw [if_neg hi] at h
        injection h with h
        rw [← h]
        exact applyPrepend_toPrepend_length sb

theorem equalsLoop_applyPrepend (sb : SB) (hwf : sb.WF) (value : List Nat) :
    ∀ (fuel i : Nat),
      sb.equalsLoop value i fuel = sb.applyPrepend.equalsLoop value i fuel := by
  intro fuel
  induction fuel with
  | zero => intro i; simp [SB.equalsLoop]
  | succ f ih =>
    intro i
    unfold SB.equalsLoop
    rw [charCodeAt_applyPrepend sb hwf]
    by_cases hi : i < value.length
    · rw [if_pos hi, if_pos hi]
      cases sb.applyPrepend.charCodeAt (i : Int) with
      | none => rfl
      | some c =>
        dsimp only
        by_cases hc : value.getD i 0 ≠ c
        · rw [if_pos hc, if_pos hc]
        · rw [if_neg hc, if_neg hc]
          exact ih (i + 1)
    · rw [if_neg hi, if_neg hi]

theorem equals_applyPrepend (sb : SB) (hwf : sb.WF) (value : List Nat) :
    sb.equals value = sb.applyPrepend.equals value := by
  unfold SB.equals
  rw [applyPrepend_length_getter]
  by_cases h1 : (value.length : Int) ≠ sb.length
  · rw [if_pos h1, if_pos h1]
  · rw [if_neg h1, if_neg h1]
    by_cases h2 : value.length = 0 ∧ sb.length = 0
    · rw [if_pos h2, if_pos h2]
    · rw [if_neg h2, if_neg h2]
      exact equalsLoop_applyPrepend sb hwf value value.length 0

theorem matchLoop_applyPrepend (sb : SB) (hwf : sb.WF) (q : List Nat) (i : Int) :
    ∀ (fuel j : Nat),
      sb.matchLoop q i j fuel = sb.applyPrepend.matchLoop q i j fuel := by
  intro fuel
  induction fuel with
  | zero => intro j; simp [SB.matchLoop]
  | succ f ih =>
    intro j
    unfold SB.matchLoop
    rw [charCodeAt_applyPrepend sb hwf]
    by_cases hj : j < q.length
    · rw [if_pos hj, if_pos hj]
      cases sb.applyPrepend.charCodeAt (i + (j : Int)) with
      | none => rfl
      | some c =>
        dsimp only
        by_cases hc : c = q.getD j 0
        · rw [if_pos hc, if_pos hc]
          exact ih (j + 1)
        · rw [if_neg hc, if_neg hc]
    · rw [if_neg hj, if_neg hj]

theorem searchLoop_applyPrepend (sb : SB) (hwf : sb.WF) (q : List Nat) (e : Int) :
    ∀ (fuel : Nat) (i : Int),
      sb.searchLoop q e i fuel = sb.applyPrepend.searchLoop q e i fuel := by
  intro fuel
  induction fuel with
  | zero => intro i; simp [SB.searchLoop]
  | succ f ih =>
    intro i
    unfold SB.searchLoop
    rw [matchLoop_applyPrepend sb hwf]
    by_cases hi : i < e
    · rw [if_pos hi, if_pos hi]
      cases sb.applyPrepend.matchLoop q i 0 q.length with
      | none => rfl
      | some b =>
        cases b with
        | false => dsimp only; exact ih (i + 1)
        | true => rfl
    · rw [if_neg hi, if_neg hi]

theorem search_applyPrepend (sb : SB) (hwf : sb.WF) (q : List Nat)
    (startAt : Int) (endOpt : Option Int) :
    sb.search q startAt endOpt = sb.applyPrepend.search q startAt endOpt := by
  unfold SB.search
  rw [applyPrepend_length_getter, validateIndex_applyPrepend]
  by_cases h0 : sb.length = 0
  · rw [if_pos h0, if_pos h0]
  · rw [if_neg h0, if_neg h0]
    cases hv : sb.validateIndex startAt false with
    | none => rfl
    | some s =>
      dsimp only
      by_cases hq : q.length = 0
      · rw [if_pos hq, if_pos hq]
      · rw [if_neg hq, if_neg hq]
        cases endOpt with
        | none =>
          dsimp only
          rw [validateIndex_applyPrepend]
          cases hv2 : sb.validateIndex (sb.length - q.length + 1) true with
          | none => rfl
          | some e =>
            dsimp only
            exact searchLoop_applyPrepend sb hwf q e _ s
        | some e0 =>
          dsimp only
          rw [validateIndex_applyPrepend]
          cases hv2 : sb.validateIndex (min e0 (sb.length - q.length + 1)) true with
          | none => rfl
          | some e =>
            dsimp only
            exact searchLoop_applyPrepend sb hwf q e _ s

/-- Claim C1: the spec asserts `0 <= _length <= _str.length` after every
public operation, and in particular that `splice` with a negative index and
an oversized delete count never leaves the logical length below 0.  The
code violates this: `splice` clamps `delCount` against the still-raw
(negative) index, so `new StringBuilder("01234").splice(-5, 100)` clamps
the delete count to `5 - (-5) = 10` units and sets `_length` to `-5`.
This theorem evaluates the code at that failing input. -/
theorem claim1_splice_negative_length :
    ((SB.ofString [48, 49, 50, 51, 52]).splice (-5) 100 []).map SB._length =
      some (-5) := by decide

/-- Claim C3: the spec says `clear()` resets the builder's length to 0 and
a subsequent materializing read returns the empty string, for every builder
including one holding pending prepend-buffer data.  The code never touches
`_toPrepend` in `clear()`, so after `prepend("a")` (unit 97) followed by
`clear()` the total length is 1 and the materializing read returns `"a"` —
both with an empty main buffer (`new StringBuilder()`) and with prior main
content (`new StringBuilder("x")`, unit 120). -/
theorem claim3_clear_leaves_prepend :
    (SB.mkDefault.prepend [97]).clear.length = 1 ∧
      (SB.mkDefault.prepend [97]).clear.strGet.fst = [97] ∧
      ((SB.ofString [120]).prepend [97]).clear.length = 1 ∧
      ((SB.ofString [120]).prepend [97]).clear.strGet.fst = [97] := by decide

/-- Claim C4: the spec says one materializing read decodes the buffer into
the cache and clears the dirty flag, so a second read returns the cache
without re-decoding.  The code never resets `_isDirty`, so after
`new StringBuilder("a").append("b")` the flag is set, remains set after the
first `str()`, and the second `str()` therefore takes the decode path again
(it happens to produce an equal value, shown by the last conjunct). -/
theorem claim4_str_keeps_dirty :
    ((SB.ofString [97]).append [98])._isDirty = true ∧
      ((SB.ofString [97]).append [98]).strGet.snd._isDirty = true ∧
      ((SB.ofString [97]).append [98]).strGet.snd.strGet.fst =
        ((SB.ofString [97]).append [98]).strGet.fst := by decide

/-- Claim C5 counterexample: the claim says each listed operation —
`append` and `shrink` among them — first applies the prepend merge so that
the prepend buffer is empty when the operation returns.  On
`new StringBuilder().prepend("a")` both `append("b")` and `shrink()`
return with the prepend buffer still holding 1 unit (the logical content
remains correct, as the third conjunct shows). -/
theorem claim5_counterexample :
    ((SB.mkDefault.prepend [97]).append [98])._toPrepend._length = 1 ∧
      ((SB.mkDefault.prepend [97]).append [98]).length = 2 ∧
      ((SB.mkDefault.prepend [97]).append [98]).strGet.fst = [97, 98] ∧
      (SB.mkDefault.prepend [97]).shrink._toPrepend._length = 1 := by decide

/-- Claim C6 counterexample: the claim says literal search returns the
not-found sentinel `-1` whenever no match exists, including every query
longer than the builder's content, with a caller-supplied `end` clamped to
`length - query.length + 1`.  Two divergences, one per conjunct:
(1) on `new StringBuilder("abc")` with query `"abcde"` (two units longer
than the content) the default `end = 3 - 5 + 1 = -1` is negative, index
validation translates it to `2`, the scan matches `a`, `b`, `c` and then
reads position 3, raising `RangeError` (modelled `none`) instead of
returning `-1`; (2) on `new StringBuilder("abcdxy")` the call
`search("xyz", 0, -1)` should scan the empty range `[0, min(-1, 4))` and
return `-1` under the claimed clamp, but the code translates the negative
end to `-1 + 6 = 5`, partially matches `x`, `y` at position 4 and reads
position 6, raising `RangeError`. -/
theorem claim6_counterexample :
    (SB.ofString [97, 98, 99]).search [97, 98, 99, 100, 101] 0 none = none ∧
      (SB.ofString [97, 98, 99, 100, 120, 121]).search [120, 121, 122] 0
        (some (-1)) = none := by
  decide

/-- Claim C2: for every builder `b` with materialized content `m` and
strings `s1`, `s2`, `b.prepend(s1).prepend(s2)` followed by materialization
yields `s2 ++ s1 ++ m`: `prepend` writes its argument's units into the
prepend buffer in reverse order and the merge reverses them back, so the
most recent prepend ends up at the logical front. -/
theorem claim2_prepend_prepend_materialize (sb : SB) (s1 s2 : List Nat)
    (hwf : sb.WF) (hc : sb.CacheOK) :
    ((sb.prepend s1).prepend s2).strGet.fst = s2 ++ s1 ++ sb.strGet.fst := by
  rw [strGet_fst _ (prepend_WF _ (prepend_WF _ hwf s1) s2)
    (prepend_CacheOK _ (prepend_CacheOK _ hc s1) s2)]
  rw [prepend_content _ (prepend_WF _ hwf s1) s2, prepend_content _ hwf s1]
  rw [strGet_fst _ hwf hc, List.append_assoc]

/-- Witness for C2 at a concrete input: the spec's example
`new StringBuilder().prepend("b").prepend("a").str() == "ab"`
(units 98 and 97). -/
theorem claim2_witness :
    SB.mkDefault.WF ∧ SB.mkDefault.CacheOK ∧
      ((SB.mkDefault.prepend [98]).prepend [97]).strGet.fst =
        [97] ++ [98] ++ SB.mkDefault.strGet.fst ∧
      ((SB.mkDefault.prepend [98]).prepend [97]).strGet.fst = [97, 98] :=
  ⟨by decide, by decide,
    claim2_prepend_prepend_materialize SB.mkDefault [98] [97] (by decide) (by decide),
    by decide⟩

/-- Claim C7: after `splice(i, d, t)` completes, the builder's length
equals the length before minus the clamp of `d` to `[0, length - i]`
(computed with the raw `i`, exactly as the code does) plus the length of
`t`. -/
theorem claim7_splice_length (sb : SB) (i d : Int) (t : List Nat) (sb' : SB)
    (h : sb.splice i d t = some sb') :
    sb'.length = sb.length - max (min (sb.length - i) d) 0 + t.length := by
  unfold SB.splice at h
  dsimp only at h
  cases hv : sb.applyPrepend.validateIndex i true with
  | none => rw [hv] at h; exact absurd h (by simp)
  | some j =>
    rw [hv] at h
    dsimp only at h
    injection h with h
    subst h
    have hm := applyPrepend_mainLength sb
    have hp := applyPrepend_toPrepend_length sb
    unfold SB.length at hm ⊢
    dsimp only
    by_cases hd : d ≠ 0
    · rw [if_pos hd]; omega
    · rw [if_neg hd]; push_neg at hd; omega

/-- Witness for C7 at the spec's concrete scenario:
`construct("012345"); splice(length, 100, "6789")` gives length 10 and
materializes to `"0123456789"`. -/
theorem claim7_witness :
    ((SB.ofString [48, 49, 50, 51, 52, 53]).splice 6 100 [54, 55, 56, 57]).map
        SB.length = some 10 ∧
      ((SB.ofString [48, 49, 50, 51, 52, 53]).splice 6 100 [54, 55, 56, 57]).map
        (fun b => b.strGet.fst) = some [48, 49, 50, 51, 52, 53, 54, 55, 56, 57] := by
  constructor
  · cases hh : (SB.ofString [48, 49, 50, 51, 52, 53]).splice 6 100 [54, 55, 56, 57] with
    | none => exact absurd hh (by decide)
    | some sb' =>
      have h := claim7_splice_length (SB.ofString [48, 49, 50, 51, 52, 53]) 6 100
        [54, 55, 56, 57] sb' hh
      rw [Option.map_some', h]
      decide
  · decide

/-- Claim C8: index normalization translates a negative index to
`length + index` and the range error is raised exactly when the translated
index is `< 0` or `≥ length` (`≥ length + 1` where one-past-the-end is
permitted); hence `charAt(-1) = charAt(length - 1)` on a non-empty builder,
and on a builder holding `"012"` both `charAt(3)` and `charAt(-4)` raise
the range error. -/
theorem claim8_validate_index (sb : SB) (i : Int) (ae : Bool) :
    (sb.validateIndex i ae = none ↔
      ((if i < 0 then sb.length + i else i) < 0 ∨
        (if i < 0 then sb.length + i else i) ≥ sb.length + (if ae then 1 else 0))) ∧
    (0 < sb.length → sb.charAt (-1) = sb.charAt (sb.length - 1)) ∧
    ((SB.ofString [48, 49, 50]).charAt 3 = none ∧
      (SB.ofString [48, 49, 50]).charAt (-4) = none) := by
  refine ⟨?_, ?_, by decide, by decide⟩
  · rw [validateIndex_none_iff]
    by_cases hi : i < 0 <;> by_cases hae : ae <;>
      simp only [hi, hae, if_true, if_false] <;> omega
  · intro hpos
    have hv1 : sb.validateIndex (-1) false = some (sb.length - 1) := by
      unfold SB.validateIndex
      rw [if_pos (by omega : (-1 : Int) < 0), if_neg (by omega)]
      congr 1
      omega
    have hv2 : sb.validateIndex (sb.length - 1) false = some (sb.length - 1) := by
      unfold SB.validateIndex
      rw [if_neg (by omega : ¬ sb.length - 1 < 0), if_neg (by omega)]
    unfold SB.charAt
    rw [hv1, hv2]

/-- Witness for C8 at a concrete input: the builder holding `"012"` is
non-empty and its `charAt(-1)` equals `charAt(length - 1)`. -/
theorem claim8_witness :
    (0 : Int) < (SB.ofString [48, 49, 50]).length ∧
      (SB.ofString [48, 49, 50]).charAt (-1) =
        (SB.ofString [48, 49, 50]).charAt ((SB.ofString [48, 49, 50]).length - 1) ∧
      (SB.ofString [48, 49, 50]).charAt 3 = none :=
  ⟨by decide,
    (claim8_validate_index (SB.ofString [48, 49, 50]) 0 false).2.1 (by decide),
    (claim8_validate_index (SB.ofString [48, 49, 50]) 0 false).2.2.1⟩

/-- Claim C9: `write(index, data)` with non-empty `data` and
`0 ≤ index ≤ length` overwrites exactly `[index, index + data.length)`
with `data`, leaves every other storage position of the (merged) builder
unchanged — in particular every other position below the old length, and
any gap `[old length, index)` retains whatever was previously in storage —
and the new length is `max (index + data.length) (old length)`.
The frame conclusion compares against `applyPrepend sb`, the state after
the prepend merge that `write` performs first. -/
theorem claim9_write_frame (sb : SB) (i : Int) (s : List Nat) (hwf : sb.WF)
    (hs : s ≠ []) (h0 : 0 ≤ i) (_hle : i ≤ sb.length) :
    (∀ k : Nat, (k : Int) < s.length →
        (sb.write i s)._str.getD (i + k).toNat 0 = s.getD k 0) ∧
    (∀ k : Nat, k < sb.applyPrepend._str.length →
        ((k : Int) < i ∨ i + s.length ≤ (k : Int)) →
        (sb.write i s)._str.getD k 0 = sb.applyPrepend._str.getD k 0) ∧
    (sb.write i s).length = max (i + s.length) sb.length := by
  have hsl : s.length ≠ 0 := by simpa using hs
  obtain ⟨m1, m2, m3, m4⟩ := applyPrepend_WF sb hwf
  have hm := applyPrepend_mainLength sb
  have hp := applyPrepend_toPrepend_length sb
  unfold SB.write
  rw [if_neg hsl]
  dsimp only
  set m := sb.applyPrepend with hmm
  set newLength := max (i + (s.length : Int)) m._length with hnl
  set str1 := expandBuf newLength m._str with hstr1
  have hlen1 : newLength ≤ (str1.length : Int) := length_expandBuf_ge_size _ _
  have hlen1' : m._str.length ≤ str1.length := length_expandBuf_ge _ _
  have hlen2 : (writeUnits str1 i s).length = str1.length := writeUnits_length _ _ _
  refine ⟨?_, ?_, ?_⟩
  · intro k hk
    have hik : (i + (k : Int)).toNat < str1.length := by omega
    rw [writeUnits_getD _ _ _ _ hik]
    rw [if_pos (by constructor <;> omega)]
    congr 1
    omega
  · intro k hk hout
    rw [writeUnits_getD _ _ _ _ (by omega)]
    rw [if_neg (by omega)]
    exact expandBuf_getD _ _ _ hk
  · unfold SB.length
    dsimp only
    rw [hp]
    unfold SB.length at hm
    omega

/-- Witness for C9 at a concrete input: `new StringBuilder("012345")`,
`write(2, "abc")` — position 2 now holds unit 97 and the length stays 6
(`max (2 + 3) 6`). -/
theorem claim9_witness :
    (SB.ofString [48, 49, 50, 51, 52, 53]).WF ∧
      ((SB.ofString [48, 49, 50, 51, 52, 53]).write 2 [97, 98, 99])._str.getD 2 0 = 97 ∧
      ((SB.ofString [48, 49, 50, 51, 52, 53]).write 2 [97, 98, 99]).length =
        max (2 + (([97, 98, 99] : List Nat).length : Int))
          (SB.ofString [48, 49, 50, 51, 52, 53]).length := by
  refine ⟨by decide, ?_, ?_⟩
  · have h := (claim9_write_frame (SB.ofString [48, 49, 50, 51, 52, 53]) 2 [97, 98, 99]
      (by decide) (by decide) (by decide) (by decide)).1 0 (by decide)
    simpa using h
  · exact (claim9_write_frame (SB.ofString [48, 49, 50, 51, 52, 53]) 2 [97, 98, 99]
      (by decide) (by decide) (by decide) (by decide)).2.2

/-- Claim C10: with pending prepend-buffer data (or without), `charAt`,
`charCodeAt` and the `length` getter return exactly what they would return
after the prepend merge, for every index including invalid ones (where both
sides raise the range error).  The three reads are embedded as pure
functions of the state because the source performs no assignment in them —
they leave both buffers, both lengths, the dirty flag and the cache
untouched — so the refinement content is the equality with the
merged-state reads. -/
theorem claim10_reads_refine_merged (sb : SB) (hwf : sb.WF) (i : Int) :
    sb.charAt i = sb.applyPrepend.charAt i ∧
    sb.charCodeAt i = sb.applyPrepend.charCodeAt i ∧
    sb.length = sb.applyPrepend.length :=
  ⟨charAt_applyPrepend sb hwf i, charCodeAt_applyPrepend sb hwf i,
    (applyPrepend_length_getter sb).symm⟩

/-- Witness for C10 at a concrete input: a builder holding pending prepend
data (`prepend("0")` then `append("1")`) reads the same values as its
merged form. -/
theorem claim10_witness :
    ((SB.mkDefault.prepend [48]).append [49]).WF ∧
      ((SB.mkDefault.prepend [48]).append [49])._toPrepend._length = 1 ∧
      ((SB.mkDefault.prepend [48]).append [49]).charAt 0 =
        ((SB.mkDefault.prepend [48]).append [49]).applyPrepend.charAt 0 ∧
      ((SB.mkDefault.prepend [48]).append [49]).length =
        ((SB.mkDefault.prepend [48]).append [49]).applyPrepend.length :=
  ⟨by decide, by decide,
    (claim10_reads_refine_merged ((SB.mkDefault.prepend [48]).append [49])
      (by decide) 0).1,
    (claim10_reads_refine_merged ((SB.mkDefault.prepend [48]).append [49])
      (by decide) 0).2.2⟩

/-- Claim C5 (amended): among the public operations the claim lists, those
that do merge first are `splice` (hence `insert` at a nonzero index; index
0 routes to `prepend` instead), `write` with non-empty data, `replace`,
`substring` and the materializing read: when any of them returns, the
prepend buffer's logical length is 0 and all content resides in the main
buffer.  `append` and `shrink` mutate without merging — `append` leaves the
whole prepend builder untouched and `shrink` shrinks each buffer
independently, preserving the pending prepend length (see the
counterexample) — and the `length` getter, `charAt`/`charCodeAt`, literal
`search` and `equals` are assignment-free reads that never merge, computing
over both buffers the same results as on the merged builder. -/
theorem claim5_amended_merge_ops (sb sb' : SB) (i d : Int) (t s q v : List Nat)
    (startAt : Int) (endOpt : Option Int) :
    (sb.splice i d t = some sb' → sb'._toPrepend._length = 0) ∧
    (s ≠ [] → (sb.write i s)._toPrepend._length = 0) ∧
    sb.strGet.snd._toPrepend._length = 0 ∧
    (sb.substring startAt endOpt).snd._toPrepend._length = 0 ∧
    (∀ sb2, sb.replace q v startAt endOpt = some sb2 →
      sb2._toPrepend._length = 0) ∧
    (sb.append s)._toPrepend = sb._toPrepend ∧
    sb.shrink._toPrepend._length = sb._toPrepend._length ∧
    (sb.WF →
      sb.length = sb.applyPrepend.length ∧
      sb.equals t = sb.applyPrepend.equals t ∧
      sb.search q startAt endOpt = sb.applyPrepend.search q startAt endOpt) := by
  refine ⟨?_, ?_, strGet_snd_toPrepend_length sb, ?_, ?_, append_toPrepend sb s,
    shrink_toPrepend_length sb, ?_⟩
  · intro h
    unfold SB.splice at h
    dsimp only at h
    cases hv : sb.applyPrepend.validateIndex i true with
    | none => rw [hv] at h; exact absurd h (by simp)
    | some j =>
      rw [hv] at h
      dsimp only at h
      injection h with h
      subst h
      exact applyPrepend_toPrepend_length sb
  · intro hs
    unfold SB.write
    rw [if_neg (by simpa using hs)]
    exact applyPrepend_toPrepend_length sb
  · rw [substring_snd]
    exact applyPrepend_toPrepend_length sb
  · intro sb2 h
    exact replace_toPrepend_length sb q v startAt endOpt sb2 h
  · intro hwf
    exact ⟨(applyPrepend_length_getter sb).symm, equals_applyPrepend sb hwf t,
      search_applyPrepend sb hwf q startAt endOpt⟩

/-- Witness for C5 (amended) at concrete inputs: on a builder with pending
prepend data, `splice`, `write`, `replace`, `substring` and the
materializing read all leave the prepend buffer empty, while `append` and
`shrink` leave its pending unit in place and `equals`/`search` agree with
the merged builder. -/
theorem claim5_witness :
    ((SB.mkDefault.prepend [97]).write 0 [98])._toPrepend._length = 0 ∧
      (SB.mkDefault.prepend [97]).strGet.snd._toPrepend._length = 0 ∧
      ((SB.mkDefault.prepend [97]).substring 0 none).snd._toPrepend._length = 0 ∧
      ((SB.mkDefault.prepend [97]).append [98])._toPrepend =
        (SB.mkDefault.prepend [97])._toPrepend ∧
      (SB.mkDefault.prepend [97]).shrink._toPrepend._length =
        (SB.mkDefault.prepend [97])._toPrepend._length ∧
      (SB.mkDefault.prepend [97]).equals [97] =
        (SB.mkDefault.prepend [97]).applyPrepend.equals [97] ∧
      (SB.mkDefault.prepend [97]).search [97] 0 none =
        (SB.mkDefault.prepend [97]).applyPrepend.search [97] 0 none ∧
      ((SB.mkDefault.prepend [97]).splice 0 0 [97]).map
        (fun b => b._toPrepend._length) = some 0 ∧
      ((SB.mkDefault.prepend [97]).replace [97] [98] 0 none).map
        (fun b => b._toPrepend._length) = some 0 := by
  refine ⟨(claim5_amended_merge_ops (SB.mkDefault.prepend [97]) SB.mkDefault 0 0 [97]
      [98] [97] [98] 0 none).2.1 (by decide),
    (claim5_amended_merge_ops (SB.mkDefault.prepend [97]) SB.mkDefault 0 0 [97] []
      [97] [98] 0 none).2.2.1,
    (claim5_amended_merge_ops (SB.mkDefault.prepend [97]) SB.mkDefault 0 0 [97] []
      [97] [98] 0 none).2.2.2.1,
    (claim5_amended_merge_ops (SB.mkDefault.prepend [97]) SB.mkDefault 0 0 [97]
      [98] [97] [98] 0 none).2.2.2.2.2.1,
    (claim5_amended_merge_ops (SB.mkDefault.prepend [97]) SB.mkDefault 0 0 [97] []
      [97] [98] 0 none).2.2.2.2.2.2.1,
    ((claim5_amended_merge_ops (SB.mkDefault.prepend [97]) SB.mkDefault 0 0 [97] []
      [97] [98] 0 none).2.2.2.2.2.2.2 (by decide)).2.1,
    ((claim5_amended_merge_ops (SB.mkDefault.prepend [97]) SB.mkDefault 0 0 [97] []
      [97] [98] 0 none).2.2.2.2.2.2.2 (by decide)).2.2,
    ?_, ?_⟩
  · cases hh : (SB.mkDefault.prepend [97]).splice 0 0 [97] with
    | none => exact absurd hh (by decide)
    | some sb' =>
      have h := (claim5_amended_merge_ops (SB.mkDefault.prepend [97]) sb' 0 0 [97] []
        [97] [98] 0 none).1 hh
      rw [Option.map_some', h]
  · cases hh : (SB.mkDefault.prepend [97]).replace [97] [98] 0 none with
    | none => exact absurd hh (by decide)
    | some sb2 =>
      have h := (claim5_amended_merge_ops (SB.mkDefault.prepend [97]) SB.mkDefault 0 0
        [97] [] [97] [98] 0 none).2.2.2.2.1 sb2 hh
      rw [Option.map_some', h]

/-! The literal-search scan, related to the spec-side match predicate. -/

theorem matchLoop_spec (sb : SB) (hwf : sb.WF) (q : List Nat) (i : Int)
    (h0 : 0 ≤ i) (hle : i + q.length ≤ sb.length) :
    ∀ (fuel j : Nat), j + fuel = q.length →
      sb.matchLoop q i j fuel =
        some (decide ((sb.content.drop (i.toNat + j)).take (q.length - j) = q.drop j)) := by
  have hcl : (sb.content.length : Int) = sb.length := content_length sb hwf
  intro fuel
  induction fuel with
  | zero =>
    intro j hj
    have hj' : j = q.length := by omega
    subst hj'
    simp [SB.matchLoop]
  | succ f ih =>
    intro j hj
    have hjlt : j < q.length := by omega
    have hnc : i.toNat + j < sb.content.length := by omega
    have hv : sb.validateIndex (i + (j : Int)) false = some (i + (j : Int)) :=
      validateIndex_of_in_range sb (i + (j : Int)) false (by omega) (by simp; omega)
    unfold SB.matchLoop
    rw [if_pos hjlt, charCodeAt_content sb hwf _ _ hv]
    dsimp only
    have hn : (i + (j : Int)).toNat = i.toNat + j := by omega
    rw [hn]
    have hdrop : sb.content.drop (i.toNat + j) =
        sb.content[i.toNat + j] :: sb.content.drop (i.toNat + j + 1) :=
      List.drop_eq_getElem_cons hnc
    have hqdrop : q.drop j = q[j] :: q.drop (j + 1) := List.drop_eq_getElem_cons hjlt
    have htake : q.length - j = (q.length - (j + 1)) + 1 := by omega
    have hgd : sb.content.getD (i.toNat + j) 0 = sb.content[i.toNat + j] :=
      List.getD_eq_getElem sb.content 0 hnc
    have hqd : q.getD j 0 = q[j] := List.getD_eq_getElem q 0 hjlt
    by_cases hcc : sb.content.getD (i.toNat + j) 0 = q.getD j 0
    · rw [if_pos hcc, ih (j + 1) (by omega)]
      congr 1
      rw [decide_eq_decide]
      rw [hdrop, hqdrop, htake, List.take_succ_cons]
      have hcc' : sb.content[i.toNat + j] = q[j] := by rw [← hgd, ← hqd]; exact hcc
      rw [List.cons_eq_cons]
      constructor
      · intro hA
        exact ⟨hcc', hA⟩
      · intro hA
        exact hA.2
    · rw [if_neg hcc]
      congr 1
      symm
      rw [decide_eq_false_iff_not]
      intro heq
      rw [hdrop, hqdrop, htake, List.take_succ_cons, List.cons_eq_cons] at heq
      exact hcc (by rw [hgd, hqd]; exact heq.1)

theorem matchLoop_full (sb : SB) (hwf : sb.WF) (q : List Nat) (i : Int)
    (h0 : 0 ≤ i) (hle : i + q.length ≤ sb.length) :
    sb.matchLoop q i 0 q.length =
      some (decide ((sb.content.drop i.toNat).take q.length = q)) := by
  have h := matchLoop_spec sb hwf q i h0 hle q.length 0 (by omega)
  simpa using h

theorem searchLoop_spec (sb : SB) (hwf : sb.WF) (q : List Nat) (e : Int)
    (he : e ≤ sb.length - q.length + 1) :
    ∀ (fuel : Nat) (i : Int), 0 ≤ i → fuel = (e - i).toNat →
      ∃ r, sb.searchLoop q e i fuel = some r ∧
        ((r = -1 ∧ ∀ k, i ≤ k → k < e → ¬ MatchAt sb.content q k) ∨
         (i ≤ r ∧ r < e ∧ MatchAt sb.content q r ∧
           ∀ k, i ≤ k → k < r → ¬ MatchAt sb.content q k)) := by
  intro fuel
  induction fuel with
  | zero =>
    intro i hi hf
    refine ⟨-1, by simp [SB.searchLoop], Or.inl ⟨rfl, fun k hk1 hk2 => ?_⟩⟩
    omega
  | succ f ih =>
    intro i hi hf
    have hlt : i < e := by omega
    have hle' : i + (q.length : Int) ≤ sb.length := by omega
    unfold SB.searchLoop
    rw [if_pos hlt, matchLoop_full sb hwf q i hi hle']
    by_cases hP : (sb.content.drop i.toNat).take q.length = q
    · rw [decide_eq_true hP]
      exact ⟨i, rfl, Or.inr ⟨le_refl i, hlt, ⟨hi, hP⟩, fun k hk1 hk2 => by omega⟩⟩
    · rw [decide_eq_false hP]
      obtain ⟨r, hr, hcase⟩ := ih (i + 1) (by omega) (by omega)
      have hnoti : ¬ MatchAt sb.content q i := fun hM => hP hM.2
      refine ⟨r, hr, ?_⟩
      rcases hcase with ⟨hr1, hall⟩ | ⟨hr1, hr2, hr3, hall⟩
      · refine Or.inl ⟨hr1, fun k hk1 hk2 => ?_⟩
        rcases eq_or_lt_of_le hk1 with hk | hk
        · rw [← hk]; exact hnoti
        · exact hall k (by omega) hk2
      · refine Or.inr ⟨by omega, hr2, hr3, fun k hk1 hk2 => ?_⟩
        rcases eq_or_lt_of_le hk1 with hk | hk
        · rw [← hk]; exact hnoti
        · exact hall k (by omega) hk2

/-- Claim C6 (amended): for a literal query, search on an empty builder
returns `-1`; with valid `startAt`, an empty query returns `-1`; and with
valid `startAt`, a non-empty query and a non-negative effective end
`e0` — the default `length - query.length + 1`, or a caller-supplied `end`
clamped by `min` to that bound (`e0 ≥ 0` exactly when the query is at most
`length + 1` units and any caller-supplied `end` is non-negative) —
`search` returns the smallest start position in `[startAt, e0)` at which
every query unit matches, else `-1`.  When `e0` is negative (a query of
length `≥ length + 2`, or a negative caller-supplied `end`), `e0` is
instead translated by `+ length` through index normalization: if still
negative the call raises the range error (last conjunct), and otherwise the
scan runs to the wrapped bound and raises the range error as soon as a
query prefix keeps matching past the logical end (see the
counterexample). -/
theorem claim6_amended_search (sb : SB) (hwf : sb.WF) (q : List Nat)
    (startAt : Int) (endOpt : Option Int) :
    (sb.length = 0 → sb.search q startAt endOpt = some (-1)) ∧
    (∀ s0, sb.validateIndex startAt false = some s0 → q.length = 0 →
      sb.search q startAt endOpt = some (-1)) ∧
    (∀ s0, sb.validateIndex startAt false = some s0 → q.length ≠ 0 →
      (0 : Int) ≤ (match endOpt with
        | none => sb.length - (q.length : Int) + 1
        | some e => min e (sb.length - (q.length : Int) + 1)) →
      ∃ r e0,
        e0 = (match endOpt with
          | none => sb.length - (q.length : Int) + 1
          | some e => min e (sb.length - (q.length : Int) + 1)) ∧
        sb.search q startAt endOpt = some r ∧
        ((r = -1 ∧ ∀ k, s0 ≤ k → k < e0 → ¬ MatchAt sb.content q k) ∨
         (s0 ≤ r ∧ r < e0 ∧ MatchAt sb.content q r ∧
           ∀ k, s0 ≤ k → k < r → ¬ MatchAt sb.content q k))) ∧
    (∀ s0, sb.validateIndex startAt false = some s0 → q.length ≠ 0 →
      (match endOpt with
        | none => sb.length - (q.length : Int) + 1
        | some e => min e (sb.length - (q.length : Int) + 1)) + sb.length < 0 →
      sb.search q startAt endOpt = none) := by
  refine ⟨?_, ?_, ?_, ?_⟩
  · intro h
    unfold SB.search
    rw [if_pos h]
  · intro s0 hval hq
    obtain ⟨hs1, hs2, hs3⟩ := validateIndex_some sb startAt false s0 hval
    have hs3' : s0 < sb.length := by simpa using hs3
    unfold SB.search
    rw [if_neg (by omega), hval]
    dsimp only
    rw [if_pos hq]
  · intro s0 hval hq he0
    obtain ⟨hs1, hs2, hs3⟩ := validateIndex_some sb startAt false s0 hval
    have hs3' : s0 < sb.length := by simpa using hs3
    have hq1 : 1 ≤ (q.length : Int) := by omega
    unfold SB.search
    rw [if_neg (by omega), hval]
    dsimp only
    rw [if_neg hq]
    cases endOpt with
    | none =>
      dsimp only at he0 ⊢
      have h1 : sb.length - (q.length : Int) + 1 < sb.length + 1 := by omega
      rw [validateIndex_of_in_range sb _ true he0 (by simpa using h1)]
      obtain ⟨r, hr, hcase⟩ := searchLoop_spec sb hwf q (sb.length - q.length + 1)
        (by omega) ((sb.length - (q.length : Int) + 1) - s0).toNat s0 hs2 rfl
      exact ⟨r, _, rfl, hr, hcase⟩
    | some e =>
      dsimp only at he0 ⊢
      have h1 : min e (sb.length - (q.length : Int) + 1) < sb.length + 1 := by omega
      rw [validateIndex_of_in_range sb _ true he0 (by simpa using h1)]
      obtain ⟨r, hr, hcase⟩ := searchLoop_spec sb hwf q
        (min e (sb.length - (q.length : Int) + 1)) (by omega)
        ((min e (sb.length - (q.length : Int) + 1)) - s0).toNat s0 hs2 rfl
      exact ⟨r, _, rfl, hr, hcase⟩
  · intro s0 hval hq hneg
    obtain ⟨hs1, hs2, hs3⟩ := validateIndex_some sb startAt false s0 hval
    have hs3' : s0 < sb.length := by simpa using hs3
    unfold SB.search
    rw [if_neg (by omega), hval]
    dsimp only
    rw [if_neg hq]
    cases endOpt with
    | none =>
      dsimp only at hneg ⊢
      have hv : sb.validateIndex (sb.length - (q.length : Int) + 1) true = none := by
        unfold SB.validateIndex
        rw [if_pos (by omega : sb.length - (q.length : Int) + 1 < 0),
          if_pos (by omega)]
      rw [hv]
    | some e =>
      dsimp only at hneg ⊢
      have hv : sb.validateIndex (min e (sb.length - (q.length : Int) + 1)) true =
          none := by
        unfold SB.validateIndex
        rw [if_pos (by omega : min e (sb.length - (q.length : Int) + 1) < 0),
          if_pos (by omega)]
      rw [hv]

/-- Witness for C6 (amended) at concrete inputs: on
`new StringBuilder("012345")` the query `"234"` is found at position 2, a
position that satisfies the spec-side match predicate; and on
`new StringBuilder("abc")` a 10-unit query makes even the translated end
negative, so the call raises the range error. -/
theorem claim6_witness :
    ((SB.ofString [48, 49, 50, 51, 52, 53]).search [50, 51, 52] 0 none = some 2 ∧
      MatchAt (SB.ofString [48, 49, 50, 51, 52, 53]).content [50, 51, 52] 2) ∧
      (SB.ofString [97, 98, 99]).search [1, 2, 3, 4, 5, 6, 7, 8, 9, 10] 0 none =
        none := by
  refine ⟨?_, ?_⟩
  · obtain ⟨r, e0, he0, hr, hcase⟩ :=
      (claim6_amended_search (SB.ofString [48, 49, 50, 51, 52, 53]) (by decide)
        [50, 51, 52] 0 none).2.2.1 0 (by decide) (by decide) (by decide)
    have hs : (SB.ofString [48, 49, 50, 51, 52, 53]).search [50, 51, 52] 0 none =
        some 2 := by decide
    refine ⟨hs, ?_⟩
    rw [hs] at hr
    injection hr with hr
    rw [← hr] at hcase
    rcases hcase with ⟨h1, _⟩ | ⟨_, _, h3, _⟩
    · exact absurd h1 (by decide)
    · exact h3
  · exact (claim6_amended_search (SB.ofString [97, 98, 99]) (by decide)
      [1, 2, 3, 4, 5, 6, 7, 8, 9, 10] 0 none).2.2.2 0 (by decide) (by decide)
      (by decide)

end JsStringBuilder
